import Mathlib

/-!
Verification of the videoAvatar streaming text-to-speech pipeline.

The definitions below are a shallow embedding of the Python sources:
  - server/utils/tts_text_cleaner.py   (clean_text_for_tts, is_tts_worthy)
  - server/utils/streaming_tts.py      (TTS_SEMAPHORE, generate_tts_async, TTSQueue)
  - server/routes/conversation_routes.py (chat_with_avatar_stream)

Text is modelled as `List Char`; Python string operations (strip, split,
find, endswith, `in`, lower) are embedded as executable functions over
ASCII text, which is the domain the pipeline operates on.
-/

namespace VideoAvatar

abbrev Str := List Char

/-- Python ASCII whitespace: the characters matched by `str.strip`, `str.split`
and the regex class `\s` on ASCII input. -/
def pyWs (c : Char) : Bool :=
  c = ' ' || c = '\t' || c = '\n' || c = '\r' || c = '\x0b' || c = '\x0c'

/-- Python `str.lstrip()`. -/
def pyLStrip (s : Str) : Str := s.dropWhile pyWs

/-- Python `str.rstrip()`. -/
def pyRStrip (s : Str) : Str := (s.reverse.dropWhile pyWs).reverse

/-- Python `str.strip()`. -/
def pyStrip (s : Str) : Str := pyRStrip (pyLStrip s)

/-- Helper for `pySplit`: accumulates the current (reversed) word. -/
def pySplitAux : Str → Str → List Str
  | acc, [] => if acc = [] then [] else [acc.reverse]
  | acc, c :: rest =>
    if pyWs c then
      if acc = [] then pySplitAux [] rest else acc.reverse :: pySplitAux [] rest
    else
      pySplitAux (c :: acc) rest

/-- Python `str.split()` (split on whitespace runs, dropping empties). -/
def pySplit (s : Str) : List Str := pySplitAux [] s

/-- Helper for `pyFind`: index of the first occurrence of `needle`. -/
def pyFindAux (needle : Str) : Str → Nat → Option Nat
  | [], i => if needle = [] then some i else none
  | c :: rest, i =>
    if needle.isPrefixOf (c :: rest) then some i else pyFindAux needle rest (i + 1)

/-- Python `str.find(needle)` returning `none` for -1. -/
def pyFind (hay needle : Str) : Option Nat := pyFindAux needle hay 0

/-- Python `needle in hay` substring test. -/
def pyContains (hay needle : Str) : Bool := (pyFind hay needle).isSome

/-- Python `str.lower()` on ASCII text. -/
def pyLower (s : Str) : Str := s.map Char.toLower

/-- Sentence boundary search of `chat_with_avatar_stream`
(server/routes/conversation_routes.py, lines 266-273): the leftmost
occurrence of a period followed by a space, or, failing that, the final
index when the stripped buffer ends in a period. -/
def boundaryIdx (buf : Str) : Option Nat :=
  match pyFind buf ['.', ' '] with
  | some i => some i
  | none =>
    if (pyStrip buf).getLast? = some '.' then some (buf.length - 1) else none

/-!
Embedding of server/utils/tts_text_cleaner.py.  Each `re.sub` call of
`clean_text_for_tts` is specialized to an executable character-level
scanner with Python's leftmost, non-overlapping substitution semantics.
Scanners that advance past more than one character per step are fueled;
every recursive call consumes at least one input character, so fuel
`s.length + 1` always suffices and the wrappers pass exactly that.
-/

/-- Substitution of code fences (three backticks, shortest inner span,
deleted).  A match needs an opening fence with a later closing fence; the
leftmost match opens at the first fence and closes at the next one. -/
def removeCodeBlocksGo : Nat → Str → Str
  | 0, s => s
  | Nat.succ fuel, s =>
    match pyFind s ['`', '`', '`'] with
    | none => s
    | some i =>
      let post := s.drop (i + 3)
      match pyFind post ['`', '`', '`'] with
      | none => s
      | some j => s.take i ++ removeCodeBlocksGo fuel (post.drop (j + 3))

def removeCodeBlocks (s : Str) : Str := removeCodeBlocksGo (s.length + 1) s

/-- Substitution of inline code: a backtick, one or more non-backticks, a
backtick; replaced by the inner span. -/
def removeInlineCodeGo : Nat → Str → Str
  | 0, s => s
  | Nat.succ fuel, s =>
    match s with
    | [] => []
    | '`' :: rest =>
      let inner := rest.takeWhile (· ≠ '`')
      let rest' := rest.dropWhile (· ≠ '`')
      match inner, rest' with
      | _ :: _, '`' :: tail => inner ++ removeInlineCodeGo fuel tail
      | _, _ => '`' :: removeInlineCodeGo fuel rest
    | c :: rest => c :: removeInlineCodeGo fuel rest

def removeInlineCode (s : Str) : Str := removeInlineCodeGo (s.length + 1) s

/-- Substitution of double-star bold markers: two stars, one or more
non-stars, two stars; replaced by the inner span. -/
def removeBoldStarsGo : Nat → Str → Str
  | 0, s => s
  | Nat.succ fuel, s =>
    match s with
    | [] => []
    | '*' :: '*' :: rest =>
      let inner := rest.takeWhile (· ≠ '*')
      let rest' := rest.dropWhile (· ≠ '*')
      if inner ≠ [] ∧ ['*', '*'].isPrefixOf rest' then
        inner ++ removeBoldStarsGo fuel (rest'.drop 2)
      else '*' :: removeBoldStarsGo fuel ('*' :: rest)
    | c :: rest => c :: removeBoldStarsGo fuel rest

def removeBoldStars (s : Str) : Str := removeBoldStarsGo (s.length + 1) s

/-- Substitution of double-underscore bold markers. -/
def removeBoldUnderscoresGo : Nat → Str → Str
  | 0, s => s
  | Nat.succ fuel, s =>
    match s with
    | [] => []
    | '_' :: '_' :: rest =>
      let inner := rest.takeWhile (· ≠ '_')
      let rest' := rest.dropWhile (· ≠ '_')
      if inner ≠ [] ∧ ['_', '_'].isPrefixOf rest' then
        inner ++ removeBoldUnderscoresGo fuel (rest'.drop 2)
      else '_' :: removeBoldUnderscoresGo fuel ('_' :: rest)
    | c :: rest => c :: removeBoldUnderscoresGo fuel rest

def removeBoldUnderscores (s : Str) : Str := removeBoldUnderscoresGo (s.length + 1) s

/-- Substitution of single-star italic markers: a star, one or more
non-stars, a star; replaced by the inner span. -/
def removeItalicStarsGo : Nat → Str → Str
  | 0, s => s
  | Nat.succ fuel, s =>
    match s with
    | [] => []
    | '*' :: rest =>
      let inner := rest.takeWhile (· ≠ '*')
      let rest' := rest.dropWhile (· ≠ '*')
      match inner, rest' with
      | _ :: _, '*' :: tail => inner ++ removeItalicStarsGo fuel tail
      | _, _ => '*' :: removeItalicStarsGo fuel rest
    | c :: rest => c :: removeItalicStarsGo fuel rest

def removeItalicStars (s : Str) : Str := removeItalicStarsGo (s.length + 1) s

/-- Substitution of single-underscore italic markers. -/
def removeItalicUnderscoresGo : Nat → Str → Str
  | 0, s => s
  | Nat.succ fuel, s =>
    match s with
    | [] => []
    | '_' :: rest =>
      let inner := rest.takeWhile (· ≠ '_')
      let rest' := rest.dropWhile (· ≠ '_')
      match inner, rest' with
      | _ :: _, '_' :: tail => inner ++ removeItalicUnderscoresGo fuel tail
      | _, _ => '_' :: removeItalicUnderscoresGo fuel rest
    | c :: rest => c :: removeItalicUnderscoresGo fuel rest

def removeItalicUnderscores (s : Str) : Str := removeItalicUnderscoresGo (s.length + 1) s

/-- MULTILINE substitution of markdown headers: at a line start, one to six
hash marks followed by at least one whitespace character (greedily
consumed, newlines included) are deleted.  `atStart` tracks whether the
current position follows a newline (or is the string start). -/
def removeHeadersGo : Nat → Bool → Str → Str
  | 0, _, s => s
  | Nat.succ fuel, atStart, s =>
    match s with
    | [] => []
    | c :: rest =>
      if atStart ∧ c = '#' then
        let k := (s.takeWhile (· = '#')).length
        let afterH := s.drop k
        match afterH with
        | w :: _ =>
          if k ≤ 6 ∧ pyWs w then
            let wsRun := afterH.takeWhile pyWs
            removeHeadersGo fuel (wsRun.getLast? = some '\n') (afterH.dropWhile pyWs)
          else c :: removeHeadersGo fuel false rest
        | [] => c :: removeHeadersGo fuel false rest
      else c :: removeHeadersGo fuel (c = '\n') rest

def removeHeaders (s : Str) : Str := removeHeadersGo (s.length + 1) true s

/-- Substitution of markdown links: a bracketed non-empty label followed by
a parenthesized non-empty target collapses to the label. -/
def removeMarkdownLinksGo : Nat → Str → Str
  | 0, s => s
  | Nat.succ fuel, s =>
    match s with
    | [] => []
    | '[' :: rest =>
      let label := rest.takeWhile (· ≠ ']')
      let r1 := rest.dropWhile (· ≠ ']')
      match label, r1 with
      | _ :: _, ']' :: '(' :: r2 =>
        let target := r2.takeWhile (· ≠ ')')
        let r3 := r2.dropWhile (· ≠ ')')
        match target, r3 with
        | _ :: _, ')' :: tail => label ++ removeMarkdownLinksGo fuel tail
        | _, _ => '[' :: removeMarkdownLinksGo fuel rest
      | _, _ => '[' :: removeMarkdownLinksGo fuel rest
    | c :: rest => c :: removeMarkdownLinksGo fuel rest

def removeMarkdownLinks (s : Str) : Str := removeMarkdownLinksGo (s.length + 1) s

/-- Length of an http or https URL match starting here: the scheme prefix
(greedy optional s) and a non-empty greedy run of non-whitespace. -/
def matchHttpLen (s : Str) : Option Nat :=
  let attempt (p : Str) : Option Nat :=
    if p.isPrefixOf s then
      let run := (s.drop p.length).takeWhile (fun c => ¬ pyWs c)
      if run ≠ [] then some (p.length + run.length) else none
    else none
  match attempt ('h' :: 't' :: 't' :: 'p' :: 's' :: ':' :: '/' :: '/' :: []) with
  | some n => some n
  | none => attempt ('h' :: 't' :: 't' :: 'p' :: ':' :: '/' :: '/' :: [])

/-- Substitution of http(s) URLs by the word "link". -/
def replaceHttpUrlsGo : Nat → Str → Str
  | 0, s => s
  | Nat.succ fuel, s =>
    match s with
    | [] => []
    | c :: rest =>
      match matchHttpLen s with
      | some n => ('l' :: 'i' :: 'n' :: 'k' :: []) ++ replaceHttpUrlsGo fuel (s.drop n)
      | none => c :: replaceHttpUrlsGo fuel rest

def replaceHttpUrls (s : Str) : Str := replaceHttpUrlsGo (s.length + 1) s

/-- Length of a www URL match starting here: the literal prefix and a
non-empty greedy run of non-whitespace. -/
def matchWwwLen (s : Str) : Option Nat :=
  if ('w' :: 'w' :: 'w' :: '.' :: []).isPrefixOf s then
    let run := (s.drop 4).takeWhile (fun c => ¬ pyWs c)
    if run ≠ [] then some (4 + run.length) else none
  else none

/-- Substitution of www URLs by the word "link". -/
def replaceWwwUrlsGo : Nat → Str → Str
  | 0, s => s
  | Nat.succ fuel, s =>
    match s with
    | [] => []
    | c :: rest =>
      match matchWwwLen s with
      | some n => ('l' :: 'i' :: 'n' :: 'k' :: []) ++ replaceWwwUrlsGo fuel (s.drop n)
      | none => c :: replaceWwwUrlsGo fuel rest

def replaceWwwUrls (s : Str) : Str := replaceWwwUrlsGo (s.length + 1) s

/-- Does a maximal non-whitespace run contain an at-sign at index ≥ 1
with a dot at least two positions later and at least one character after
the dot?  This is exactly when the email pattern (non-empty run, at-sign,
non-empty run, dot, non-empty run) matches the run; the greedy trailing
segment always extends to the end of the run. -/
def hasAtDot (run : Str) : Bool :=
  (List.range run.length).any fun j =>
    decide (1 ≤ j) && (run.getD j ' ' == '@') &&
      ((List.range run.length).any fun k =>
        decide (j + 2 ≤ k) && decide (k + 2 ≤ run.length) && (run.getD k ' ' == '.'))

/-- Length of an email match starting here (the whole non-whitespace run),
if the pattern matches. -/
def emailMatchLen (s : Str) : Option Nat :=
  match s with
  | [] => none
  | c :: _ =>
    if pyWs c then none
    else
      let run := s.takeWhile (fun c => ¬ pyWs c)
      if hasAtDot run then some run.length else none

/-- Substitution of email addresses by the words "email address". -/
def replaceEmailsGo : Nat → Str → Str
  | 0, s => s
  | Nat.succ fuel, s =>
    match s with
    | [] => []
    | c :: rest =>
      match emailMatchLen s with
      | some n =>
        ('e' :: 'm' :: 'a' :: 'i' :: 'l' :: ' ' :: 'a' :: 'd' :: 'd' :: 'r' :: 'e' :: 's' :: 's' :: [])
          ++ replaceEmailsGo fuel (s.drop n)
      | none => c :: replaceEmailsGo fuel rest

def replaceEmails (s : Str) : Str := replaceEmailsGo (s.length + 1) s

/-- Substitution of a maximal run of the character `ch`: a run of length
at least `minRun` is replaced by `rep`; shorter runs pass through. -/
def collapseRunGo (ch : Char) (minRun : Nat) (rep : Str) : Nat → Str → Str
  | 0, s => s
  | Nat.succ fuel, s =>
    match s with
    | [] => []
    | c :: rest =>
      if c = ch then
        let run := s.takeWhile (· = ch)
        let tail := s.dropWhile (· = ch)
        if minRun ≤ run.length then rep ++ collapseRunGo ch minRun rep fuel tail
        else run ++ collapseRunGo ch minRun rep fuel tail
      else c :: collapseRunGo ch minRun rep fuel rest

def collapseRun (ch : Char) (minRun : Nat) (rep : Str) (s : Str) : Str :=
  collapseRunGo ch minRun rep (s.length + 1) s

/-- Substitution of a maximal non-empty run of characters in class `p`
by `rep`. -/
def collapseClassRunGo (p : Char → Bool) (rep : Str) : Nat → Str → Str
  | 0, s => s
  | Nat.succ fuel, s =>
    match s with
    | [] => []
    | c :: rest =>
      if p c then
        rep ++ collapseClassRunGo p rep fuel (s.dropWhile p)
      else c :: collapseClassRunGo p rep fuel rest

def collapseClassRun (p : Char → Bool) (rep : Str) (s : Str) : Str :=
  collapseClassRunGo p rep (s.length + 1) s

/-- The character class removed wholesale by the cleaner (at-sign, hash,
dollar, percent, caret, ampersand, star, pipe, backslash, slash, angle
brackets, tilde, backtick, equals, plus). -/
def isSpecialChar (c : Char) : Bool :=
  c = '@' || c = '#' || c = '$' || c = '%' || c = '^' || c = '&' || c = '*' ||
  c = '|' || c = '\\' || c = '/' || c = '<' || c = '>' || c = '~' || c = '`' ||
  c = '=' || c = '+'

/-- The sentence punctuation class: period, comma, semicolon, colon,
exclamation mark, question mark. -/
def isPunct1 (c : Char) : Bool :=
  c = '.' || c = ',' || c = ';' || c = ':' || c = '!' || c = '?'

/-- Substitution of a whitespace run, a punctuation mark, and a second
whitespace run by the mark followed by one space (the standalone
punctuation cleanup).  No match can begin inside a whitespace run whose
continuation fails the pattern, so the scanner may skip the whole run. -/
def fixSpacedPunctGo : Nat → Str → Str
  | 0, s => s
  | Nat.succ fuel, s =>
    match s with
    | [] => []
    | c :: rest =>
      if pyWs c then
        let afterWs := rest.dropWhile pyWs
        match afterWs with
        | p :: r2 =>
          if isPunct1 p && (match r2 with | d :: _ => pyWs d | [] => false) then
            p :: ' ' :: fixSpacedPunctGo fuel (r2.dropWhile pyWs)
          else (c :: rest.takeWhile pyWs) ++ fixSpacedPunctGo fuel afterWs
        | [] => s
      else c :: fixSpacedPunctGo fuel rest

def fixSpacedPunct (s : Str) : Str := fixSpacedPunctGo (s.length + 1) s

/-- Substitution of a punctuation mark directly followed by a non-space
character by the mark, a space, and that character. -/
def spaceAfterPunctGo : Nat → Str → Str
  | 0, s => s
  | Nat.succ fuel, s =>
    match s with
    | [] => []
    | p :: d :: rest =>
      if isPunct1 p ∧ ¬ pyWs d then p :: ' ' :: d :: spaceAfterPunctGo fuel rest
      else p :: spaceAfterPunctGo fuel (d :: rest)
    | c :: rest => c :: spaceAfterPunctGo fuel rest

def spaceAfterPunct (s : Str) : Str := spaceAfterPunctGo (s.length + 1) s

/-- The source also substitutes a non-space character followed by a
punctuation mark with the very same two characters; every match is
replaced by itself, so the pass is the identity on the text. -/
def rejoinPunct (s : Str) : Str := s

/-- Opening bracket class: parenthesis, square bracket, curly bracket. -/
def isOpenB (c : Char) : Bool := c = '(' || c = '[' || c = '\x7b'

/-- Closing bracket class. -/
def isCloseB (c : Char) : Bool := c = ')' || c = ']' || c = '\x7d'

/-- Substitution deleting an opening bracket, optional whitespace, and a
closing bracket (brackets need not match). -/
def removeEmptyBracketsGo : Nat → Str → Str
  | 0, s => s
  | Nat.succ fuel, s =>
    match s with
    | [] => []
    | c :: rest =>
      if isOpenB c then
        let r := rest.dropWhile pyWs
        match r with
        | d :: tail =>
          if isCloseB d then removeEmptyBracketsGo fuel tail
          else c :: removeEmptyBracketsGo fuel rest
        | [] => s
      else c :: removeEmptyBracketsGo fuel rest

def removeEmptyBrackets (s : Str) : Str := removeEmptyBracketsGo (s.length + 1) s

/-- Substitution deleting a parenthesis pair whose content is a non-empty
run of digits and whitespace. -/
def removeNumberParensGo : Nat → Str → Str
  | 0, s => s
  | Nat.succ fuel, s =>
    match s with
    | [] => []
    | '(' :: rest =>
      let run := rest.takeWhile (fun c => c.isDigit || pyWs c)
      let r := rest.dropWhile (fun c => c.isDigit || pyWs c)
      match run, r with
      | _ :: _, ')' :: tail => removeNumberParensGo fuel tail
      | _, _ => '(' :: removeNumberParensGo fuel rest
    | c :: rest => c :: removeNumberParensGo fuel rest

def removeNumberParens (s : Str) : Str := removeNumberParensGo (s.length + 1) s

/-- Python `str.replace(a, b)` for single characters. -/
def pyReplaceChar (a b : Char) (s : Str) : Str := s.map (fun c => if c = a then b else c)

/-- The double-quote character (the source's quote normalization replaces
it by itself: the replacement pairs in the file are ASCII-identical). -/
def dqChar : Char := Char.ofNat 34

/-- The single-quote character. -/
def sqChar : Char := Char.ofNat 39

/-- Final conditional period: appended when the text does not already end
in punctuation and has more than three words. -/
def maybeAppendPeriod (s : Str) : Str :=
  match s.getLast? with
  | some c =>
    if ¬ (c = '.' ∨ c = '!' ∨ c = '?' ∨ c = ',' ∨ c = ';' ∨ c = ':')
        ∧ 3 < (pySplit s).length then
      s ++ ['.']
    else s
  | none => s

/-- `clean_text_for_tts` from server/utils/tts_text_cleaner.py: the full
substitution chain, in source order. -/
def clean_text_for_tts (text : Str) : Str :=
  if text = [] ∨ pyStrip text = [] then []
  else
    let c0 := pyStrip text
    let c1 := removeCodeBlocks c0
    let c2 := removeInlineCode c1
    let c3 := removeBoldStars c2
    let c4 := removeBoldUnderscores c3
    let c5 := removeItalicStars c4
    let c6 := removeItalicUnderscores c5
    let c7 := removeHeaders c6
    let c8 := removeMarkdownLinks c7
    let c9 := replaceHttpUrls c8
    let c10 := replaceWwwUrls c9
    let c11 := replaceEmails c10
    let c12 := collapseRun '!' 2 ['!'] c11
    let c13 := collapseRun '?' 2 ['?'] c12
    let c14 := collapseRun '.' 3 ['.', '.', '.'] c13
    let c15 := collapseRun ',' 2 [','] c14
    let c16 := collapseClassRun isSpecialChar [' '] c15
    let c17 := collapseClassRun pyWs [' '] c16
    let c18 := fixSpacedPunct c17
    let c19 := spaceAfterPunct c18
    let c20 := rejoinPunct c19
    let c21 := removeEmptyBrackets c20
    let c22 := removeNumberParens c21
    let c23 := pyReplaceChar sqChar sqChar (pyReplaceChar sqChar sqChar
      (pyReplaceChar dqChar dqChar (pyReplaceChar dqChar dqChar c22)))
    let c24 := collapseRun '-' 2 [' '] c23
    let c25 := collapseClassRun pyWs [' '] c24
    let c26 := pyStrip c25
    if c26 = [] ∨ (pyStrip c26 = ['.'] ∨ pyStrip c26 = [','] ∨ pyStrip c26 = ['!'] ∨
        pyStrip c26 = ['?'] ∨ pyStrip c26 = [';'] ∨ pyStrip c26 = [':']) then []
    else maybeAppendPeriod c26

/-- `is_tts_worthy` from server/utils/tts_text_cleaner.py.  The float
comparison `alpha_chars / len(cleaned) < 0.3` is embedded as the exact
rational comparison `10 * alpha < 3 * len`, which agrees with the float
computation for all realistic string lengths. -/
def is_tts_worthy (text : Str) (min_length : Nat := 3) : Bool :=
  if text = [] ∨ pyStrip text = [] then false
  else
    let cleaned := clean_text_for_tts text
    if (pySplit cleaned).length < min_length then false
    else if 0 < cleaned.length ∧
        10 * (cleaned.filter Char.isAlpha).length < 3 * cleaned.length then false
    else true

/-!
Embedding of server/utils/streaming_tts.py.  The synthesis backend
`text_to_speech_with_voice_cloning_bytes` is an external collaborator and
is modelled as an oracle; `generate_tts_async` records its observable
side effects (the backend call, the CUDA cache clear) in an action list.
-/

/-- Audio payload abstraction (a byte string). -/
abbrev Audio := List Nat

/-- Result of one call into the synthesis backend: returned bytes
(possibly `none`, the Python function may return `None`) or a raised
exception carrying its message. -/
inductive BackendResult where
  | ok (audio : Option Audio)
  | raised (msg : Str)
deriving DecidableEq

/-- A synthesis backend oracle: the outcome of calling the backend on
given text, reference audio and language. -/
abbrev Backend := Str → Str → Str → BackendResult

/-- Observable side effects of `generate_tts_async`. -/
inductive TtsAction where
  | synthCall (text ref lang : Str)
  | cudaCacheClear
deriving DecidableEq

/-- Process environment: whether `torch.cuda.is_available()`. -/
structure TtsEnv where
  cudaAvailable : Bool
deriving DecidableEq

/-- The uppercase CUDA marker searched for in error messages. -/
def cudaUpper : Str := 'C' :: 'U' :: 'D' :: 'A' :: []

/-- The lowercase cuda marker searched for in lowered error messages. -/
def cudaLower : Str := 'c' :: 'u' :: 'd' :: 'a' :: []

/-- `generate_tts_async` (server/utils/streaming_tts.py lines 19-77):
empty or whitespace-only text returns `None` at once; the text is cleaned
and validated with `is_tts_worthy(cleaned, 3)`, returning `None` when the
check fails (before any backend call); otherwise the backend is called on
the cleaned text inside the semaphore gate.  A raised exception is caught
and turned into `None`; when its message contains the CUDA marker (upper
case, or lower case after lowering) the CUDA cache is cleared once if
available.  The result pairs the returned audio with the emitted
actions. -/
def generate_tts_async (env : TtsEnv) (backend : Backend)
    (text ref lang : Str) : Option Audio × List TtsAction :=
  if text = [] ∨ pyStrip text = [] then (none, [])
  else
    let cleaned := clean_text_for_tts text
    if ¬ is_tts_worthy cleaned 3 then (none, [])
    else
      match backend cleaned ref lang with
      | .ok audio => (audio, [.synthCall cleaned ref lang])
      | .raised msg =>
        let clear : List TtsAction :=
          if (pyContains msg cudaUpper || pyContains (pyLower msg) cudaLower)
              && env.cudaAvailable then
            [.cudaCacheClear]
          else []
        (none, .synthCall cleaned ref lang :: clear)

/-- A completed audio chunk as placed on `TTSQueue.completed_queue`. -/
structure Chunk where
  chunk_id : Nat
  text : Str
  audio : Audio
deriving DecidableEq

/-- `TTSQueue._generate_with_id` (lines 115-153): texts that are empty or
whose stripped form is shorter than 3 characters are skipped; otherwise
`generate_tts_async` runs and a chunk is published exactly when it
returned truthy (non-`None`, non-empty) audio bytes.  Exceptions are
caught and produce no chunk. -/
def generateWithId (env : TtsEnv) (backend : Backend)
    (text ref lang : Str) (chunkId : Nat) : Option Chunk × List TtsAction :=
  if text = [] ∨ (pyStrip text).length < 3 then (none, [])
  else
    let r := generate_tts_async env backend text ref lang
    match r.1 with
    | some audio => if audio ≠ [] then (some ⟨chunkId, text, audio⟩, r.2) else (none, r.2)
    | none => (none, r.2)

/-- The `TTSQueue` state: the FIFO queue of completed chunks (head is the
next to be retrieved), the list of active tasks paired with the chunk
each will eventually publish (if any), and the task counter. -/
structure TTSQueue where
  completed_queue : List Chunk
  active_tasks : List (Nat × Option Chunk)
  task_counter : Nat
deriving DecidableEq

def TTSQueue.init : TTSQueue := ⟨[], [], 0⟩

/-- Python `chunk_id or task_id` in `add_tts_task`: `or` takes the second
operand when the first is falsy, and the integer 0 is falsy. -/
def pythonOrId (chunkId : Option Nat) (taskId : Nat) : Nat :=
  match chunkId with
  | some c => if c = 0 then taskId else c
  | none => taskId

/-- `TTSQueue.add_tts_task` (lines 90-113): allocate `task_id` from the
counter, spawn `_generate_with_id` with id `chunk_id or task_id`, and
append the task to the active list. -/
def TTSQueue.add_tts_task (env : TtsEnv) (backend : Backend) (q : TTSQueue)
    (text ref lang : Str) (chunkId : Option Nat) : TTSQueue :=
  let task_id := q.task_counter
  let eff := (generateWithId env backend text ref lang (pythonOrId chunkId task_id)).1
  { completed_queue := q.completed_queue
    active_tasks := q.active_tasks ++ [(task_id, eff)]
    task_counter := q.task_counter + 1 }

/-- `TTSQueue.wait_for_chunk` (lines 155-169): pop the head of the
completed queue, or time out with `None` when it is empty. -/
def TTSQueue.wait_for_chunk (q : TTSQueue) : Option Chunk × TTSQueue :=
  match q.completed_queue with
  | c :: rest => (some c, { q with completed_queue := rest })
  | [] => (none, q)

/-- `TTSQueue.wait_all` (lines 171-180): await every active task with
`gather(..., return_exceptions=True)` — exceptions are collected, never
raised — so each task that publishes a chunk has put it on the completed
queue; then clear the active list.  The completed queue itself is not
cleared (the source comment: chunks need to be retrieved by the
caller). -/
def TTSQueue.wait_all (q : TTSQueue) : TTSQueue :=
  { completed_queue := q.completed_queue ++ q.active_tasks.filterMap (·.2)
    active_tasks := []
    task_counter := q.task_counter }

/-- `TTSQueue.is_queue_empty` (lines 182-184). -/
def TTSQueue.is_queue_empty (q : TTSQueue) : Bool := q.completed_queue.isEmpty

/-- `TTSQueue.get_queue_size` (lines 186-188). -/
def TTSQueue.get_queue_size (q : TTSQueue) : Nat := q.completed_queue.length

/-!
The process-wide gate `TTS_SEMAPHORE = asyncio.Semaphore(1)`
(server/utils/streaming_tts.py line 16), modelled as a transition system
over the jobs that use it exactly as `generate_tts_async` does: each job
arrives at `async with TTS_SEMAPHORE`, runs the backend call while
holding the slot, and releases.  `asyncio.Semaphore` blocks arrivals when
the counter is zero or when waiters exist, and wakes waiters in FIFO
order, which is what the constructors encode.
-/

/-- Identifier of a synthesis job. -/
abbrev JobId := Nat

/-- Gate state: the semaphore counter, the FIFO list of blocked jobs, the
jobs currently inside the `async with` block (executing the backend
call), and histories of arrivals, admissions, backend calls and
completions. -/
structure GateState where
  value : Nat
  queue : List JobId
  running : List JobId
  arrivals : List JobId
  admitted : List JobId
  calls : List JobId
  finished : List JobId
deriving DecidableEq

def GateState.init : GateState := ⟨1, [], [], [], [], [], []⟩

/-- One scheduler step of jobs at the semaphore. -/
inductive GateStep : GateState → GateState → Prop
  /-- A fresh job finds the semaphore free (positive counter, no waiters)
  and acquires at once. -/
  | arriveFree (s : GateState) (j : JobId)
      (hfresh : j ∉ s.arrivals) (hv : 0 < s.value) (hq : s.queue = []) :
      GateStep s { s with value := s.value - 1
                          running := s.running ++ [j]
                          arrivals := s.arrivals ++ [j]
                          admitted := s.admitted ++ [j] }
  /-- A fresh job finds the semaphore locked (zero counter or waiters
  present) and blocks at the tail of the FIFO queue. -/
  | arriveBusy (s : GateState) (j : JobId)
      (hfresh : j ∉ s.arrivals) (hbusy : s.value = 0 ∨ s.queue ≠ []) :
      GateStep s { s with queue := s.queue ++ [j]
                          arrivals := s.arrivals ++ [j] }
  /-- A job inside the gate performs the backend synthesis call. -/
  | backendCall (s : GateState) (j : JobId) (hj : j ∈ s.running) :
      GateStep s { s with calls := s.calls ++ [j] }
  /-- A job releases while waiters exist: the slot is handed to the head
  waiter (FIFO wake-up). -/
  | releaseToWaiter (s : GateState) (j k : JobId) (rest : List JobId)
      (hj : j ∈ s.running) (hq : s.queue = k :: rest) :
      GateStep s { s with queue := rest
                          running := s.running.erase j ++ [k]
                          admitted := s.admitted ++ [k]
                          finished := s.finished ++ [j] }
  /-- A job releases with no waiters: the counter is returned. -/
  | releaseIdle (s : GateState) (j : JobId)
      (hj : j ∈ s.running) (hq : s.queue = []) :
      GateStep s { s with value := s.value + 1
                          running := s.running.erase j
                          finished := s.finished ++ [j] }

/-- States reachable from the initial gate state. -/
inductive GateReachable : GateState → Prop
  | init : GateReachable GateState.init
  | step {s s' : GateState} : GateReachable s → GateStep s s' → GateReachable s'

/-!
Embedding of the streaming chat handler `chat_with_avatar_stream`
(server/routes/conversation_routes.py lines 199-397).  The model is
sequential: the background sender task's deliveries are serialized into
the end-of-stream drain phase (one delivery per 0.2-second poll of the
main loop's wait).  No claim below depends on mid-stream interleaving of
audio deliveries with token relay; the text events, the submission order
and ids, the drain bounds and the terminal message are all insensitive to
that scheduling choice.
-/

/-- Outbound transport messages of the streaming chat handler. -/
inductive WsEvent where
  | textChunk (text : Str)
  | audioChunk (text : Str) (audio : Audio)
  | complete (full_response : Str)
deriving DecidableEq

/-- Per-session state of the streaming loop: the accumulated response,
the sentence buffer, the chunk id counter, the TTS queue, the ordered
submission history (chunk id and text passed to `add_tts_task`) and the
transport messages sent so far. -/
structure StreamState where
  full_response : Str
  text_buffer : Str
  chunk_id_counter : Nat
  queue : TTSQueue
  submissions : List (Nat × Str)
  events : List WsEvent
deriving DecidableEq

def StreamState.start : StreamState := ⟨[], [], 0, TTSQueue.init, [], []⟩

/-- One sentence emission of the buffer loop (lines 276-293): the
sentence is the stripped buffer prefix through index `i`; when TTS is
enabled (a TTS queue exists and the avatar has reference audio) it is
submitted with the next chunk id and the counter advances; the buffer
becomes the left-stripped remainder either way. -/
def submitSentence (env : TtsEnv) (backend : Backend) (ref lang : Str)
    (ttsOn : Bool) (i : Nat) (st : StreamState) : StreamState :=
  let sentence := pyStrip (st.text_buffer.take (i + 1))
  let st' :=
    if ttsOn then
      { st with chunk_id_counter := st.chunk_id_counter + 1
                queue := st.queue.add_tts_task env backend sentence ref lang
                  (some st.chunk_id_counter)
                submissions := st.submissions ++ [(st.chunk_id_counter, sentence)] }
    else st
  { st' with text_buffer := pyLStrip (st.text_buffer.drop (i + 1)) }

/-- The inner sentence loop (lines 262-296) over the session state:
repeatedly find the boundary, emit the stripped prefix when it is
non-empty of length at least 3 (submitting it when TTS is enabled), and
continue on the left-stripped remainder.  Fueled; each iteration strictly
shrinks the buffer, so fuel `buffer length + 1` always suffices. -/
def sentenceLoopGo (env : TtsEnv) (backend : Backend) (ref lang : Str)
    (ttsOn : Bool) : Nat → StreamState → StreamState
  | 0, st => st
  | Nat.succ fuel, st =>
    if pyStrip st.text_buffer = [] then st
    else
      match boundaryIdx st.text_buffer with
      | none => st
      | some i =>
        if pyStrip (st.text_buffer.take (i + 1)) ≠ [] ∧
            3 ≤ (pyStrip (st.text_buffer.take (i + 1))).length then
          sentenceLoopGo env backend ref lang ttsOn fuel
            (submitSentence env backend ref lang ttsOn i st)
        else st

/-- One iteration of `async for chunk in llm.astream(...)` (lines
251-296): a token with falsy (empty) content is skipped entirely;
otherwise it is appended to the buffer and the full response, relayed to
the transport as a `text_chunk` at once, and the sentence loop runs. -/
def processToken (env : TtsEnv) (backend : Backend) (ref lang : Str)
    (ttsOn : Bool) (st : StreamState) (tok : Str) : StreamState :=
  if tok = [] then st
  else
    let st1 := { st with text_buffer := st.text_buffer ++ tok
                         full_response := st.full_response ++ tok
                         events := st.events ++ [.textChunk tok] }
    sentenceLoopGo env backend ref lang ttsOn (st1.text_buffer.length + 1) st1

/-- The trailing-buffer submission after the token stream ends (lines
298-310): a stripped remainder of length at least 3 is submitted with the
current counter value, which is not incremented. -/
def processRemaining (env : TtsEnv) (backend : Backend) (ref lang : Str)
    (ttsOn : Bool) (st : StreamState) : StreamState :=
  if pyStrip st.text_buffer ≠ [] ∧ 3 ≤ (pyStrip st.text_buffer).length ∧ ttsOn then
    { st with queue := st.queue.add_tts_task env backend (pyStrip st.text_buffer) ref lang
                (some st.chunk_id_counter)
              submissions := st.submissions ++ [(st.chunk_id_counter, pyStrip st.text_buffer)] }
  else st

/-- The bounded queue-empty wait (lines 326-333) with the background
sender's deliveries serialized into it: per poll interval the sender pops
one completed chunk and sends it as an `audio_chunk` when its audio bytes
are truthy.  The fuel is the poll ceiling (15.0 s wait / 0.2 s sleep = 75
polls); the loop also stops as soon as the queue is empty.  Returns the
queue, the extended event list and the number of polls used. -/
def drainWaitGo : Nat → TTSQueue → List WsEvent → TTSQueue × List WsEvent × Nat
  | 0, q, evs => (q, evs, 0)
  | Nat.succ fuel, q, evs =>
    if q.is_queue_empty then (q, evs, 0)
    else
      let r := q.wait_for_chunk
      match r.1 with
      | some c =>
        let evs' := if c.audio ≠ [] then evs ++ [.audioChunk c.text c.audio] else evs
        let out := drainWaitGo fuel r.2 evs'
        (out.1, out.2.1, out.2.2 + 1)
      | none => (q, evs, 0)

/-- The poll ceiling of the queue-empty wait. -/
def drainWaitCeiling : Nat := 75

/-- The manual remaining-chunk flush (lines 338-356): at most
`max_remaining_attempts = 20` iterations, each popping the queue with
`wait_for_chunk(timeout=0.2)` and sending truthy chunks. -/
def manualFlushGo : Nat → TTSQueue → List WsEvent → TTSQueue × List WsEvent × Nat
  | 0, q, evs => (q, evs, 0)
  | Nat.succ fuel, q, evs =>
    if q.is_queue_empty then (q, evs, 0)
    else
      let r := q.wait_for_chunk
      let evs' :=
        match r.1 with
        | some c => if c.audio ≠ [] then evs ++ [.audioChunk c.text c.audio] else evs
        | none => evs
      let out := manualFlushGo fuel r.2 evs'
      (out.1, out.2.1, out.2.2 + 1)

/-- The attempt ceiling of the manual flush. -/
def manualFlushCeiling : Nat := 20

/-- Terminal phase of a session. -/
inductive SessionPhase where
  | closed
deriving DecidableEq

/-- Result of a full session run. -/
structure SessionResult where
  state : StreamState
  waitIters : Nat
  manualAttempts : Nat
  phase : SessionPhase
deriving DecidableEq

/-- End-of-stream drain (lines 312-369) followed by the terminal
`complete` message (lines 383-388): when TTS is enabled, `wait_all` the
queue, run the bounded queue-empty wait, run the bounded manual flush,
stop the sender, then send `complete` with the stripped full response.
Every branch ends the session in the closed phase. -/
def finalizeSession (ttsOn : Bool) (st : StreamState) : SessionResult :=
  if ttsOn then
    let q1 := st.queue.wait_all
    let d := drainWaitGo drainWaitCeiling q1 st.events
    let m := manualFlushGo manualFlushCeiling d.1 d.2.1
    let evs := m.2.1 ++ [.complete (pyStrip st.full_response)]
    ⟨{ st with queue := m.1, events := evs }, d.2.2, m.2.2, .closed⟩
  else
    ⟨{ st with events := st.events ++ [.complete (pyStrip st.full_response)] }, 0, 0, .closed⟩

/-- A full session: fold the token stream through `processToken`, submit
the trailing buffer, drain and complete. -/
def runSession (env : TtsEnv) (backend : Backend) (ref lang : Str)
    (ttsOn : Bool) (tokens : List Str) : SessionResult :=
  let st1 := tokens.foldl (processToken env backend ref lang ttsOn) StreamState.start
  let st2 := processRemaining env backend ref lang ttsOn st1
  finalizeSession ttsOn st2

/-- The `text_chunk` payloads of an event trace, in order. -/
def textPayloads (evs : List WsEvent) : List Str :=
  evs.filterMap fun e =>
    match e with
    | .textChunk t => some t
    | _ => none

/-- The `audio_chunk` events of an event trace, in order. -/
def audioPayloads (evs : List WsEvent) : List (Str × Audio) :=
  evs.filterMap fun e =>
    match e with
    | .audioChunk t a => some (t, a)
    | _ => none

/-!
Strict-mode ordered delivery.  The repository's handler only implements
best-effort delivery (the background sender relays chunks in completion
order); the strict discipline is described by the specification alone.
-/

/-- Outcome of a synthesis job as seen by the strict delivery queue. -/
inductive JobResult where
  | okChunk (audio : Audio)
  | failure
deriving DecidableEq

/-- Modelled from the spec: the strict-mode `OrderedDeliveryQueue`
discipline, which is not implemented in the repository sources (the
handler's sender delivers in completion order).  Spec section 4.4: a
delivery cursor tracks the next expected sequenceNumber; chunks arriving
out of order are held in a pending set keyed by sequenceNumber until the
cursor catches up; a FailureRecord advances the cursor past its
sequenceNumber rather than blocking forever. -/
structure StrictQueue where
  cursor : Nat
  pending : List (Nat × JobResult)
  delivered : List (Nat × Audio)
deriving DecidableEq

def StrictQueue.init : StrictQueue := ⟨0, [], []⟩

/-- Remove the first pending entry with the given sequence number,
returning its result and the remaining pending set. -/
def popSeq (k : Nat) : List (Nat × JobResult) → Option (JobResult × List (Nat × JobResult))
  | [] => none
  | (s, r) :: rest =>
    if s = k then some (r, rest)
    else
      match popSeq k rest with
      | some (r', rest') => some (r', (s, r) :: rest')
      | none => none

/-- Release step: while the cursor's sequence number is pending, remove
it, deliver it when it is a chunk and skip it when it is a failure, and
advance the cursor.  Fueled by the pending-set size, which each step
strictly decreases. -/
def strictReleaseGo : Nat → StrictQueue → StrictQueue
  | 0, q => q
  | Nat.succ fuel, q =>
    match popSeq q.cursor q.pending with
    | some (r, rest) =>
      strictReleaseGo fuel
        { cursor := q.cursor + 1
          pending := rest
          delivered :=
            match r with
            | .okChunk a => q.delivered ++ [(q.cursor, a)]
            | .failure => q.delivered }
    | none => q

/-- Push an arriving result into the strict queue and release. -/
def StrictQueue.push (q : StrictQueue) (seq : Nat) (r : JobResult) : StrictQueue :=
  strictReleaseGo (q.pending.length + 1) { q with pending := (seq, r) :: q.pending }

/-- Process a whole arrival sequence in strict mode. -/
def strictDeliver (arrivals : List (Nat × JobResult)) : StrictQueue :=
  arrivals.foldl (fun q a => q.push a.1 a.2) StrictQueue.init

/-!
Theorems.
-/

/-- A backend that always returns a fixed audio payload. -/
def alwaysOkBackend : Backend := fun _ _ _ => .ok (some [7])

/-- An environment in which CUDA is unavailable. -/
def noCudaEnv : TtsEnv := ⟨false⟩

/-- The segmentation test input named by the specification. -/
def segInput : Str := ("Hello there. How are you? Fine.").data

/-- C4, counterexample.  Feeding `"Hello there. How are you? Fine."` to the
handler's segmentation does not emit the utterances `"Hello there."` and
`"How are you?"`: the code splits only at a period followed by a space (or
a buffer whose stripped form ends in a period), never at `'?'` or `'!'`,
so the second emitted utterance is `"How are you? Fine."`; and the
end-of-stream flush then emits nothing, not `"Fine."`. -/
theorem c4_segmentation_counterexample :
    (processToken noCudaEnv alwaysOkBackend [] [] true StreamState.start segInput).submissions.map
        Prod.snd ≠ [("Hello there.").data, ("How are you?").data] ∧
    (processRemaining noCudaEnv alwaysOkBackend [] [] true
        (processToken noCudaEnv alwaysOkBackend [] [] true StreamState.start segInput)).submissions
      = (processToken noCudaEnv alwaysOkBackend [] [] true StreamState.start segInput).submissions := by
  decide

/-- C4, amended.  For the input `"Hello there. How are you? Fine."` the
segmentation emits exactly the utterances `"Hello there."` and
`"How are you? Fine."` (boundaries are periods followed by a space or a
buffer whose stripped form ends in a period, taken leftmost; `'!'` and
`'?'` are not boundaries), and the end-of-stream flush emits nothing. -/
theorem c4_segmentation_amended :
    (processToken noCudaEnv alwaysOkBackend [] [] true StreamState.start segInput).submissions.map
        Prod.snd = [("Hello there.").data, ("How are you? Fine.").data] ∧
    (processRemaining noCudaEnv alwaysOkBackend [] [] true
        (processToken noCudaEnv alwaysOkBackend [] [] true StreamState.start segInput)).submissions
      = (processToken noCudaEnv alwaysOkBackend [] [] true StreamState.start segInput).submissions := by
  decide

/-- C6.  An utterance whose sanitized text fails the minimum-content check
(`is_tts_worthy` on the cleaned text: at least 3 words and alphabetic
ratio at least 0.3) is skipped silently: `generate_tts_async` returns
`None` with an empty action trace — the synthesis backend is never
called — and `_generate_with_id` publishes no chunk, for every backend
and environment. -/
theorem c6_unworthy_skipped (env : TtsEnv) (backend : Backend) (text ref lang : Str)
    (h : is_tts_worthy (clean_text_for_tts text) 3 = false) :
    generate_tts_async env backend text ref lang = (none, []) ∧
    ∀ id, generateWithId env backend text ref lang id = (none, []) := by
  have hg : generate_tts_async env backend text ref lang = (none, []) := by
    unfold generate_tts_async
    split
    · rfl
    · simp [h]
  refine ⟨hg, fun id => ?_⟩
  unfold generateWithId
  split
  · rfl
  · simp [hg]

/-- The punctuation-only utterance of the specification. -/
def dotsText : Str := ("...").data

/-- C6 at the concrete input: `"..."` fails the check, is never passed to
the backend, and yields no audio. -/
theorem c6_unworthy_skipped_witness :
    is_tts_worthy (clean_text_for_tts dotsText) 3 = false ∧
    generate_tts_async noCudaEnv alwaysOkBackend dotsText [] [] = (none, []) :=
  ⟨by decide, (c6_unworthy_skipped noCudaEnv alwaysOkBackend dotsText [] [] (by decide)).1⟩

/-- C7.  When the backend raises with a message containing the CUDA
marker and CUDA is available, `generate_tts_async` makes exactly one
backend call (no retry), clears the device cache exactly once, and
surfaces the failure to its caller as `None` (the per-utterance
synthesis-failure outcome). -/
theorem c7_cuda_error_handling (env : TtsEnv) (backend : Backend)
    (text ref lang msg : Str)
    (henv : env.cudaAvailable = true)
    (hworthy : is_tts_worthy (clean_text_for_tts text) 3 = true)
    (hraise : backend (clean_text_for_tts text) ref lang = .raised msg)
    (hcuda : pyContains msg cudaUpper = true) :
    generate_tts_async env backend text ref lang =
      (none, [.synthCall (clean_text_for_tts text) ref lang, .cudaCacheClear]) := by
  unfold generate_tts_async
  split
  · rename_i hempty
    exfalso
    have hclean : clean_text_for_tts text = [] := by
      unfold clean_text_for_tts
      rw [if_pos hempty]
    rw [hclean] at hworthy
    exact absurd hworthy (by decide)
  · rw [if_neg (by simp [hworthy])]
    rw [hraise]
    simp [hcuda, henv]

/-- A CUDA error message. -/
def cudaMsg : Str := ('C' :: 'U' :: 'D' :: 'A' :: ' ' :: 'e' :: 'r' :: 'r' :: 'o' :: 'r' :: [])

/-- A backend that always raises a CUDA error. -/
def cudaRaisingBackend : Backend := fun _ _ _ => .raised cudaMsg

/-- A TTS-worthy sentence. -/
def worthyText : Str := ("This is a perfectly fine sentence.").data

/-- C7 at a concrete input: a worthy sentence, a CUDA-raising backend and
an available device produce exactly one call and one cache clear. -/
theorem c7_cuda_error_handling_witness :
    is_tts_worthy (clean_text_for_tts worthyText) 3 = true ∧
    pyContains cudaMsg cudaUpper = true ∧
    generate_tts_async ⟨true⟩ cudaRaisingBackend worthyText [] [] =
      (none, [.synthCall (clean_text_for_tts worthyText) [] [], .cudaCacheClear]) :=
  ⟨by decide, by decide,
    c7_cuda_error_handling ⟨true⟩ cudaRaisingBackend worthyText [] [] cudaMsg rfl
      (by decide) rfl (by decide)⟩

/-- C10.  `wait_all` clears the active-task list, leaves the task counter
unchanged, and only appends to the completed queue: the prior queue is a
prefix of the new one, and every chunk already published or published by
an awaited task is in the queue afterwards (retrievable by
`wait_for_chunk`).  Exceptions are collected by the gather call, never
raised, so the function is total. -/
theorem c10_wait_all_frame (q : TTSQueue) :
    (TTSQueue.wait_all q).active_tasks = [] ∧
    (TTSQueue.wait_all q).task_counter = q.task_counter ∧
    q.completed_queue <+: (TTSQueue.wait_all q).completed_queue ∧
    (∀ c : Chunk, (c ∈ q.completed_queue ∨ ∃ tid, (tid, some c) ∈ q.active_tasks) →
      c ∈ (TTSQueue.wait_all q).completed_queue) := by
  refine ⟨rfl, rfl, ⟨_, rfl⟩, ?_⟩
  intro c hc
  unfold TTSQueue.wait_all
  simp only [List.mem_append]
  rcases hc with h | ⟨tid, h⟩
  · exact Or.inl h
  · exact Or.inr (List.mem_filterMap.mpr ⟨(tid, some c), h, rfl⟩)

/-- A concrete queue with one completed chunk and two active tasks. -/
def c10q : TTSQueue :=
  ⟨[⟨0, 'h' :: [], [1]⟩], [(1, some ⟨1, 'x' :: [], [2]⟩), (2, none)], 3⟩

/-- The chunk published by the first active task of `c10q`. -/
def c10c : Chunk := ⟨1, 'x' :: [], [2]⟩

/-- C10 at a concrete queue: the awaited task's chunk is retrievable
after `wait_all`. -/
theorem c10_wait_all_frame_witness :
    (∃ tid, (tid, some c10c) ∈ c10q.active_tasks) ∧
    c10c ∈ (TTSQueue.wait_all c10q).completed_queue :=
  ⟨⟨1, by decide⟩, (c10_wait_all_frame c10q).2.2.2 c10c (Or.inr ⟨1, by decide⟩)⟩

/-- The queue-empty wait performs at most `fuel` polls. -/
theorem drainWaitGo_iters_le (fuel : Nat) :
    ∀ q evs, (drainWaitGo fuel q evs).2.2 ≤ fuel := by
  induction fuel with
  | zero => intro q evs; simp [drainWaitGo]
  | succ n ih =>
    intro q evs
    unfold drainWaitGo
    split
    · simp
    · rcases hwc : q.wait_for_chunk with ⟨c?, q2⟩
      cases c? with
      | some c =>
        simp only [hwc]
        exact Nat.succ_le_succ (ih _ _)
      | none =>
        simp only [hwc]
        exact Nat.zero_le _

/-- The manual flush performs at most `fuel` attempts. -/
theorem manualFlushGo_iters_le (fuel : Nat) :
    ∀ q evs, (manualFlushGo fuel q evs).2.2 ≤ fuel := by
  induction fuel with
  | zero => intro q evs; simp [manualFlushGo]
  | succ n ih =>
    intro q evs
    unfold manualFlushGo
    split
    · simp
    · rcases hwc : q.wait_for_chunk with ⟨c?, q2⟩
      simp only [hwc]
      exact Nat.succ_le_succ (ih _ _)

/-- C9.  The end-of-stream drain is bounded: for every session state the
queue-empty wait stops within its poll ceiling (15 s at 0.2 s per poll),
the manual remaining-chunk flush stops within its 20-attempt ceiling, and
the session always ends in the closed phase — outstanding work past the
ceilings is abandoned rather than awaited. -/
theorem c9_drain_bounded (ttsOn : Bool) (st : StreamState) :
    (finalizeSession ttsOn st).waitIters ≤ drainWaitCeiling ∧
    (finalizeSession ttsOn st).manualAttempts ≤ manualFlushCeiling ∧
    (finalizeSession ttsOn st).phase = .closed := by
  unfold finalizeSession
  split
  · exact ⟨drainWaitGo_iters_le _ _ _, manualFlushGo_iters_le _ _ _, rfl⟩
  · exact ⟨Nat.zero_le _, Nat.zero_le _, rfl⟩

/-- Emitting a sentence touches neither the event trace nor the
accumulated response. -/
theorem submitSentence_frame (env : TtsEnv) (backend : Backend) (ref lang : Str)
    (ttsOn : Bool) (i : Nat) (st : StreamState) :
    (submitSentence env backend ref lang ttsOn i st).events = st.events ∧
    (submitSentence env backend ref lang ttsOn i st).full_response = st.full_response := by
  cases ttsOn <;> exact ⟨rfl, rfl⟩

/-- The sentence loop touches neither the event trace nor the accumulated
response. -/
theorem sentenceLoopGo_frame (env : TtsEnv) (backend : Backend) (ref lang : Str)
    (ttsOn : Bool) : ∀ fuel st,
    (sentenceLoopGo env backend ref lang ttsOn fuel st).events = st.events ∧
    (sentenceLoopGo env backend ref lang ttsOn fuel st).full_response = st.full_response := by
  intro fuel
  induction fuel with
  | zero => intro st; exact ⟨rfl, rfl⟩
  | succ n ih =>
    intro st
    unfold sentenceLoopGo
    split
    · exact ⟨rfl, rfl⟩
    · split
      · exact ⟨rfl, rfl⟩
      · split
        · constructor
          · rw [(ih _).1, (submitSentence_frame env backend ref lang ttsOn _ st).1]
          · rw [(ih _).2, (submitSentence_frame env backend ref lang ttsOn _ st).2]
        · exact ⟨rfl, rfl⟩

/-- Processing one token appends exactly its `text_chunk` event (nothing
for an empty token) and appends the token to the accumulated response. -/
theorem processToken_trace (env : TtsEnv) (backend : Backend) (ref lang : Str)
    (ttsOn : Bool) (st : StreamState) (tok : Str) :
    (processToken env backend ref lang ttsOn st tok).events
        = st.events ++ (if tok = [] then [] else [.textChunk tok]) ∧
    (processToken env backend ref lang ttsOn st tok).full_response
        = st.full_response ++ tok := by
  unfold processToken
  by_cases htok : tok = []
  · simp [htok]
  · rw [if_neg htok, if_neg htok]
    constructor
    · rw [(sentenceLoopGo_frame env backend ref lang ttsOn _ _).1]
    · rw [(sentenceLoopGo_frame env backend ref lang ttsOn _ _).2]

/-- The trailing-buffer submission touches neither the event trace nor
the accumulated response. -/
theorem processRemaining_frame (env : TtsEnv) (backend : Backend) (ref lang : Str)
    (ttsOn : Bool) (st : StreamState) :
    (processRemaining env backend ref lang ttsOn st).events = st.events ∧
    (processRemaining env backend ref lang ttsOn st).full_response = st.full_response := by
  unfold processRemaining
  split <;> exact ⟨rfl, rfl⟩

/-- `textPayloads` distributes over append. -/
theorem textPayloads_append (a b : List WsEvent) :
    textPayloads (a ++ b) = textPayloads a ++ textPayloads b :=
  List.filterMap_append a b _

/-- The token fold's `text_chunk` payloads are exactly the non-empty
tokens, in order, appended to the starting trace's payloads. -/
theorem foldl_processToken_textPayloads (env : TtsEnv) (backend : Backend)
    (ref lang : Str) (ttsOn : Bool) : ∀ (tokens : List Str) (st : StreamState),
    textPayloads ((tokens.foldl (processToken env backend ref lang ttsOn) st).events)
      = textPayloads st.events ++ tokens.filter (· ≠ []) := by
  intro tokens
  induction tokens with
  | nil => intro st; simp
  | cons tok toks ih =>
    intro st
    rw [List.foldl_cons, ih, (processToken_trace env backend ref lang ttsOn st tok).1,
      textPayloads_append]
    by_cases htok : tok = [] <;> simp [htok, textPayloads]

/-- The token fold appends the concatenated tokens to the accumulated
response. -/
theorem foldl_processToken_full (env : TtsEnv) (backend : Backend)
    (ref lang : Str) (ttsOn : Bool) : ∀ (tokens : List Str) (st : StreamState),
    (tokens.foldl (processToken env backend ref lang ttsOn) st).full_response
      = st.full_response ++ tokens.flatten := by
  intro tokens
  induction tokens with
  | nil => intro st; simp
  | cons tok toks ih =>
    intro st
    rw [List.foldl_cons, ih, (processToken_trace env backend ref lang ttsOn st tok).2,
      List.flatten_cons, List.append_assoc]

/-- The queue-empty wait adds only `audio_chunk` events: the `text_chunk`
payloads are unchanged. -/
theorem drainWaitGo_textPayloads (fuel : Nat) : ∀ q evs,
    textPayloads (drainWaitGo fuel q evs).2.1 = textPayloads evs := by
  induction fuel with
  | zero => intro q evs; rfl
  | succ n ih =>
    intro q evs
    unfold drainWaitGo
    split
    · rfl
    · rcases hwc : q.wait_for_chunk with ⟨c?, q2⟩
      cases c? with
      | some c =>
        simp only [hwc]
        rw [ih]
        split
        · rw [textPayloads_append]; simp [textPayloads]
        · rfl
      | none => simp only [hwc]

/-- The manual flush adds only `audio_chunk` events: the `text_chunk`
payloads are unchanged. -/
theorem manualFlushGo_textPayloads (fuel : Nat) : ∀ q evs,
    textPayloads (manualFlushGo fuel q evs).2.1 = textPayloads evs := by
  induction fuel with
  | zero => intro q evs; rfl
  | succ n ih =>
    intro q evs
    unfold manualFlushGo
    split
    · rfl
    · rcases hwc : q.wait_for_chunk with ⟨c?, q2⟩
      cases c? with
      | some c =>
        simp only [hwc]
        rw [ih]
        split
        · rw [textPayloads_append]; simp [textPayloads]
        · rfl
      | none =>
        simp only [hwc]
        rw [ih]

/-- The drain phase leaves the `text_chunk` payloads unchanged and the
response and submission history untouched. -/
theorem finalizeSession_textPayloads (ttsOn : Bool) (st : StreamState) :
    textPayloads (finalizeSession ttsOn st).state.events = textPayloads st.events ∧
    (finalizeSession ttsOn st).state.full_response = st.full_response ∧
    (finalizeSession ttsOn st).state.submissions = st.submissions := by
  unfold finalizeSession
  split
  · refine ⟨?_, rfl, rfl⟩
    show textPayloads (_ ++ [WsEvent.complete _]) = _
    rw [textPayloads_append, manualFlushGo_textPayloads, drainWaitGo_textPayloads]
    simp [textPayloads]
  · refine ⟨?_, rfl, rfl⟩
    rw [textPayloads_append]
    simp [textPayloads]

/-- Concatenating the non-empty members equals concatenating all. -/
theorem join_filter_ne_nil (l : List Str) : (l.filter (· ≠ [])).flatten = l.flatten := by
  induction l with
  | nil => rfl
  | cons x xs ih =>
    by_cases hx : x = []
    · subst hx
      rw [List.filter_cons, if_neg (by simp), ih, List.flatten_cons, List.nil_append]
    · rw [List.filter_cons, if_pos (by simp [hx]), List.flatten_cons, List.flatten_cons, ih]

/-- C2.  For every token sequence, every synthesis backend and every
environment, (i) the `text_chunk` payloads sent to the transport are
exactly the non-empty tokens in arrival order, (ii) their concatenation
equals both the full model output text and the session's accumulated
response, independently of all synthesis outcomes (the backend is
universally quantified), and (iii) each non-empty token's `text_chunk` is
sent before any segmentation or synthesis work for it: the sentence loop
for that token starts from a state whose trace already ends with the
token's `text_chunk` and whose submissions are still those of the
previous state. -/
theorem c2_text_relay (env : TtsEnv) (backend : Backend) (ref lang : Str)
    (ttsOn : Bool) (tokens : List Str) :
    textPayloads (runSession env backend ref lang ttsOn tokens).state.events
        = tokens.filter (· ≠ []) ∧
    (textPayloads (runSession env backend ref lang ttsOn tokens).state.events).flatten
        = tokens.flatten ∧
    (runSession env backend ref lang ttsOn tokens).state.full_response = tokens.flatten ∧
    (∀ st : StreamState, ∀ tok : Str, tok ≠ [] →
      ∃ mid : StreamState,
        processToken env backend ref lang ttsOn st tok
            = sentenceLoopGo env backend ref lang ttsOn (mid.text_buffer.length + 1) mid ∧
        mid.events = st.events ++ [.textChunk tok] ∧
        mid.submissions = st.submissions) := by
  have h1 : textPayloads (runSession env backend ref lang ttsOn tokens).state.events
      = tokens.filter (· ≠ []) := by
    unfold runSession
    rw [(finalizeSession_textPayloads _ _).1,
      (processRemaining_frame env backend ref lang ttsOn _).1,
      foldl_processToken_textPayloads]
    rfl
  have h3 : (runSession env backend ref lang ttsOn tokens).state.full_response
      = tokens.flatten := by
    unfold runSession
    rw [(finalizeSession_textPayloads _ _).2.1,
      (processRemaining_frame env backend ref lang ttsOn _).2,
      foldl_processToken_full]
    rfl
  refine ⟨h1, by rw [h1, join_filter_ne_nil], h3, ?_⟩
  intro st tok htok
  refine ⟨{ st with text_buffer := st.text_buffer ++ tok
                    full_response := st.full_response ++ tok
                    events := st.events ++ [.textChunk tok] }, ?_, rfl, rfl⟩
  unfold processToken
  rw [if_neg htok]

/-- Ids assigned so far are 0,1,2,… and the next id is the count: the
submission-id invariant of the token phase. -/
def IdInv (st : StreamState) : Prop :=
  st.submissions.map Prod.fst = List.range st.submissions.length ∧
  st.chunk_id_counter = st.submissions.length

/-- Emitting a sentence preserves the submission-id invariant. -/
theorem submitSentence_IdInv (env : TtsEnv) (backend : Backend) (ref lang : Str)
    (ttsOn : Bool) (i : Nat) (st : StreamState) (h : IdInv st) :
    IdInv (submitSentence env backend ref lang ttsOn i st) := by
  obtain ⟨h1, h2⟩ := h
  cases ttsOn with
  | false => exact ⟨h1, h2⟩
  | true =>
    have hs : (submitSentence env backend ref lang true i st).submissions
        = st.submissions ++ [(st.chunk_id_counter, pyStrip (st.text_buffer.take (i + 1)))] := rfl
    have hc : (submitSentence env backend ref lang true i st).chunk_id_counter
        = st.chunk_id_counter + 1 := rfl
    constructor
    · rw [hs, List.map_append, h1, h2]
      simp [List.range_succ]
    · rw [hc, hs, List.length_append, h2]
      rfl

/-- The sentence loop preserves the submission-id invariant. -/
theorem sentenceLoopGo_IdInv (env : TtsEnv) (backend : Backend) (ref lang : Str)
    (ttsOn : Bool) : ∀ fuel st, IdInv st →
    IdInv (sentenceLoopGo env backend ref lang ttsOn fuel st) := by
  intro fuel
  induction fuel with
  | zero => intro st h; exact h
  | succ n ih =>
    intro st h
    unfold sentenceLoopGo
    split
    · exact h
    · split
      · exact h
      · split
        · exact ih _ (submitSentence_IdInv env backend ref lang ttsOn _ st h)
        · exact h

/-- Processing one token preserves the submission-id invariant. -/
theorem processToken_IdInv (env : TtsEnv) (backend : Backend) (ref lang : Str)
    (ttsOn : Bool) (st : StreamState) (tok : Str) (h : IdInv st) :
    IdInv (processToken env backend ref lang ttsOn st tok) := by
  unfold processToken
  split
  · exact h
  · exact sentenceLoopGo_IdInv env backend ref lang ttsOn _ _ ⟨h.1, h.2⟩

/-- The token fold preserves the submission-id invariant. -/
theorem foldl_processToken_IdInv (env : TtsEnv) (backend : Backend) (ref lang : Str)
    (ttsOn : Bool) : ∀ (tokens : List Str) (st : StreamState), IdInv st →
    IdInv (tokens.foldl (processToken env backend ref lang ttsOn) st) := by
  intro tokens
  induction tokens with
  | nil => intro st h; exact h
  | cons tok toks ih =>
    intro st h
    exact ih _ (processToken_IdInv env backend ref lang ttsOn st tok h)

/-- The trailing submission reuses the counter without incrementing it,
which still extends the id sequence gaplessly. -/
theorem processRemaining_ids (env : TtsEnv) (backend : Backend) (ref lang : Str)
    (ttsOn : Bool) (st : StreamState) (h : IdInv st) :
    (processRemaining env backend ref lang ttsOn st).submissions.map Prod.fst
      = List.range (processRemaining env backend ref lang ttsOn st).submissions.length := by
  obtain ⟨h1, h2⟩ := h
  unfold processRemaining
  split
  · change (st.submissions ++ [(st.chunk_id_counter, pyStrip st.text_buffer)]).map Prod.fst
        = List.range (st.submissions ++ [(st.chunk_id_counter, pyStrip st.text_buffer)]).length
    rw [List.map_append, h1, h2]
    simp [List.range_succ]
  · exact h1

/-- C5.  In every session (with TTS enabled), the sequence numbers
attached to the utterances submitted to the work pool are exactly
0, 1, 2, …: strictly increasing, gapless, and the n-th submission carries
id n-1, in emission order. -/
theorem c5_submission_ids (env : TtsEnv) (backend : Backend) (ref lang : Str)
    (tokens : List Str) :
    (runSession env backend ref lang true tokens).state.submissions.map Prod.fst
      = List.range (runSession env backend ref lang true tokens).state.submissions.length := by
  unfold runSession
  rw [(finalizeSession_textPayloads _ _).2.2]
  exact processRemaining_ids env backend ref lang true _
    (foldl_processToken_IdInv env backend ref lang true tokens StreamState.start ⟨rfl, rfl⟩)

/-- With a backend that always raises, `generate_tts_async` never returns
audio. -/
theorem generate_fst_none_of_raises (env : TtsEnv) (backend : Backend)
    (hfail : ∀ t r l, ∃ m, backend t r l = BackendResult.raised m) (t ref lang : Str) :
    (generate_tts_async env backend t ref lang).1 = none := by
  unfold generate_tts_async
  split
  · rfl
  · by_cases hw : is_tts_worthy (clean_text_for_tts t) 3
    · obtain ⟨m, hm⟩ := hfail (clean_text_for_tts t) ref lang
      simp [hw, hm]
    · simp [hw]

/-- With a backend that always raises, no task publishes a chunk. -/
theorem generateWithId_none_of_raises (env : TtsEnv) (backend : Backend)
    (hfail : ∀ t r l, ∃ m, backend t r l = BackendResult.raised m)
    (t ref lang : Str) (id : Nat) :
    (generateWithId env backend t ref lang id).1 = none := by
  unfold generateWithId
  split
  · rfl
  · simp [generate_fst_none_of_raises env backend hfail t ref lang]

/-- The zero-audio invariant: the completed queue is empty, every active
task will publish nothing, and no `audio_chunk` has been sent. -/
def NoChunkInv (st : StreamState) : Prop :=
  st.queue.completed_queue = [] ∧ (∀ p ∈ st.queue.active_tasks, p.2 = none) ∧
  audioPayloads st.events = []

/-- Adding a task under an always-raising backend preserves the queue
parts of the zero-audio invariant. -/
theorem add_tts_task_none (env : TtsEnv) (backend : Backend)
    (hfail : ∀ t r l, ∃ m, backend t r l = BackendResult.raised m)
    (q : TTSQueue) (text ref lang : Str) (cid : Option Nat)
    (hq : q.completed_queue = []) (ha : ∀ p ∈ q.active_tasks, p.2 = none) :
    (TTSQueue.add_tts_task env backend q text ref lang cid).completed_queue = [] ∧
    (∀ p ∈ (TTSQueue.add_tts_task env backend q text ref lang cid).active_tasks,
      p.2 = none) := by
  refine ⟨hq, ?_⟩
  intro p hp
  unfold TTSQueue.add_tts_task at hp
  simp only [List.mem_append, List.mem_singleton] at hp
  rcases hp with hp | hp
  · exact ha p hp
  · rw [hp]
    exact generateWithId_none_of_raises env backend hfail text ref lang _

/-- Sentence emission preserves the zero-audio invariant. -/
theorem submitSentence_NoChunk (env : TtsEnv) (backend : Backend) (ref lang : Str)
    (ttsOn : Bool) (i : Nat) (st : StreamState)
    (hfail : ∀ t r l, ∃ m, backend t r l = BackendResult.raised m)
    (h : NoChunkInv st) : NoChunkInv (submitSentence env backend ref lang ttsOn i st) := by
  obtain ⟨hq, ha, he⟩ := h
  cases ttsOn with
  | false => exact ⟨hq, ha, he⟩
  | true =>
    exact ⟨(add_tts_task_none env backend hfail st.queue _ ref lang _ hq ha).1,
      (add_tts_task_none env backend hfail st.queue _ ref lang _ hq ha).2, he⟩

/-- The sentence loop preserves the zero-audio invariant. -/
theorem sentenceLoopGo_NoChunk (env : TtsEnv) (backend : Backend) (ref lang : Str)
    (ttsOn : Bool) (hfail : ∀ t r l, ∃ m, backend t r l = BackendResult.raised m) :
    ∀ fuel st, NoChunkInv st →
    NoChunkInv (sentenceLoopGo env backend ref lang ttsOn fuel st) := by
  intro fuel
  induction fuel with
  | zero => intro st h; exact h
  | succ n ih =>
    intro st h
    unfold sentenceLoopGo
    split
    · exact h
    · split
      · exact h
      · split
        · exact ih _ (submitSentence_NoChunk env backend ref lang ttsOn _ st hfail h)
        · exact h

/-- Token processing preserves the zero-audio invariant (a `text_chunk`
event adds no audio payload). -/
theorem processToken_NoChunk (env : TtsEnv) (backend : Backend) (ref lang : Str)
    (ttsOn : Bool) (st : StreamState) (tok : Str)
    (hfail : ∀ t r l, ∃ m, backend t r l = BackendResult.raised m)
    (h : NoChunkInv st) : NoChunkInv (processToken env backend ref lang ttsOn st tok) := by
  obtain ⟨hq, ha, he⟩ := h
  unfold processToken
  split
  · exact ⟨hq, ha, he⟩
  · refine sentenceLoopGo_NoChunk env backend ref lang ttsOn hfail _ _ ⟨hq, ha, ?_⟩
    show audioPayloads (st.events ++ [WsEvent.textChunk tok]) = []
    rw [show audioPayloads (st.events ++ [WsEvent.textChunk tok])
        = audioPayloads st.events ++ audioPayloads [WsEvent.textChunk tok] from
      List.filterMap_append _ _ _, he]
    rfl

/-- The token fold preserves the zero-audio invariant. -/
theorem foldl_processToken_NoChunk (env : TtsEnv) (backend : Backend) (ref lang : Str)
    (ttsOn : Bool) (hfail : ∀ t r l, ∃ m, backend t r l = BackendResult.raised m) :
    ∀ (tokens : List Str) (st : StreamState), NoChunkInv st →
    NoChunkInv (tokens.foldl (processToken env backend ref lang ttsOn) st) := by
  intro tokens
  induction tokens with
  | nil => intro st h; exact h
  | cons tok toks ih =>
    intro st h
    exact ih _ (processToken_NoChunk env backend ref lang ttsOn st tok hfail h)

/-- The trailing submission preserves the zero-audio invariant. -/
theorem processRemaining_NoChunk (env : TtsEnv) (backend : Backend) (ref lang : Str)
    (ttsOn : Bool) (st : StreamState)
    (hfail : ∀ t r l, ∃ m, backend t r l = BackendResult.raised m)
    (h : NoChunkInv st) : NoChunkInv (processRemaining env backend ref lang ttsOn st) := by
  obtain ⟨hq, ha, he⟩ := h
  unfold processRemaining
  split
  · exact ⟨(add_tts_task_none env backend hfail st.queue _ ref lang _ hq ha).1,
      (add_tts_task_none env backend hfail st.queue _ ref lang _ hq ha).2, he⟩
  · exact ⟨hq, ha, he⟩

/-- The queue-empty wait is a no-op on an empty queue: no polls, no
events, queue unchanged. -/
theorem drainWaitGo_empty (fuel : Nat) (q : TTSQueue) (evs : List WsEvent)
    (h : q.completed_queue = []) : drainWaitGo fuel q evs = (q, evs, 0) := by
  cases fuel with
  | zero => rfl
  | succ n =>
    unfold drainWaitGo
    rw [if_pos]
    unfold TTSQueue.is_queue_empty
    rw [h]
    rfl

/-- The manual flush is a no-op on an empty queue. -/
theorem manualFlushGo_empty (fuel : Nat) (q : TTSQueue) (evs : List WsEvent)
    (h : q.completed_queue = []) : manualFlushGo fuel q evs = (q, evs, 0) := by
  cases fuel with
  | zero => rfl
  | succ n =>
    unfold manualFlushGo
    rw [if_pos]
    unfold TTSQueue.is_queue_empty
    rw [h]
    rfl

/-- Under the zero-audio invariant the drain phase only appends the
terminal `complete` message and uses no drain iterations. -/
theorem finalizeSession_no_chunks (st : StreamState) (h : NoChunkInv st) :
    (finalizeSession true st).state.events
        = st.events ++ [.complete (pyStrip st.full_response)] ∧
    (finalizeSession true st).waitIters = 0 ∧
    (finalizeSession true st).manualAttempts = 0 := by
  have hq1 : (st.queue.wait_all).completed_queue = [] := by
    unfold TTSQueue.wait_all
    simp only []
    rw [h.1, List.nil_append]
    exact List.filterMap_eq_nil_iff.mpr h.2.1
  unfold finalizeSession
  rw [if_pos rfl]
  simp only [drainWaitGo_empty _ _ _ hq1, manualFlushGo_empty _ _ _ hq1]
  exact ⟨trivial, trivial, trivial⟩

/-- C8.  If every synthesis call raises, the session still closes with no
drain iterations used (well inside the drain ceiling), delivers zero
audio chunks, delivers the complete text, and its last transport message
is the terminal `complete` carrying the stripped full response; the
per-utterance failures never abort the session. -/
theorem c8_all_synthesis_failures (env : TtsEnv) (backend : Backend) (ref lang : Str)
    (tokens : List Str)
    (hfail : ∀ t r l, ∃ m, backend t r l = BackendResult.raised m) :
    audioPayloads (runSession env backend ref lang true tokens).state.events = [] ∧
    textPayloads (runSession env backend ref lang true tokens).state.events
        = tokens.filter (· ≠ []) ∧
    (runSession env backend ref lang true tokens).state.events.getLast?
        = some (.complete (pyStrip tokens.flatten)) ∧
    (runSession env backend ref lang true tokens).phase = .closed ∧
    (runSession env backend ref lang true tokens).waitIters = 0 ∧
    (runSession env backend ref lang true tokens).manualAttempts = 0 := by
  have hinv : NoChunkInv (processRemaining env backend ref lang true
      (tokens.foldl (processToken env backend ref lang true) StreamState.start)) :=
    processRemaining_NoChunk env backend ref lang true _ hfail
      (foldl_processToken_NoChunk env backend ref lang true hfail tokens
        StreamState.start ⟨rfl, fun p hp => absurd hp (List.not_mem_nil p), rfl⟩)
  have hfin := finalizeSession_no_chunks _ hinv
  have hfull : (processRemaining env backend ref lang true
      (tokens.foldl (processToken env backend ref lang true) StreamState.start)).full_response
      = tokens.flatten := by
    rw [(processRemaining_frame env backend ref lang true _).2, foldl_processToken_full]
    rfl
  refine ⟨?_, ?_, ?_, ?_, ?_, ?_⟩
  · show audioPayloads (finalizeSession true _).state.events = []
    rw [hfin.1]
    rw [show audioPayloads (_ ++ [WsEvent.complete (pyStrip _)])
        = audioPayloads _ ++ audioPayloads [WsEvent.complete (pyStrip _)] from
      List.filterMap_append _ _ _]
    rw [hinv.2.2]
    rfl
  · exact (c2_text_relay env backend ref lang true tokens).1
  · show (finalizeSession true _).state.events.getLast? = _
    rw [hfin.1, hfull, List.getLast?_append]
    rfl
  · exact (c9_drain_bounded true _).2.2
  · exact hfin.2.1
  · exact hfin.2.2

/-- A backend whose every call raises a CUDA error. -/
theorem c8_all_synthesis_failures_witness :
    (∀ t r l, ∃ m, cudaRaisingBackend t r l = BackendResult.raised m) ∧
    audioPayloads (runSession noCudaEnv cudaRaisingBackend [] [] true
        [("Hi there friend. ").data, ("See you soon.").data]).state.events = [] ∧
    (runSession noCudaEnv cudaRaisingBackend [] [] true
        [("Hi there friend. ").data, ("See you soon.").data]).phase = .closed :=
  ⟨fun _ _ _ => ⟨cudaMsg, rfl⟩,
    (c8_all_synthesis_failures noCudaEnv cudaRaisingBackend [] []
      [("Hi there friend. ").data, ("See you soon.").data]
      (fun _ _ _ => ⟨cudaMsg, rfl⟩)).1,
    (c8_all_synthesis_failures noCudaEnv cudaRaisingBackend [] []
      [("Hi there friend. ").data, ("See you soon.").data]
      (fun _ _ _ => ⟨cudaMsg, rfl⟩)).2.2.2.1⟩

/-- The gate invariant: semaphore accounting (jobs inside plus the
counter equal one), FIFO admission (admissions followed by the waiting
queue are exactly the arrivals, in order), no waiters while the counter
is positive, and admitted provenance of running jobs and backend calls. -/
def GateInv (s : GateState) : Prop :=
  s.running.length + s.value = 1 ∧
  s.admitted ++ s.queue = s.arrivals ∧
  (0 < s.value → s.queue = []) ∧
  (∀ j ∈ s.running, j ∈ s.admitted) ∧
  (∀ j ∈ s.calls, j ∈ s.admitted)

theorem gateInv_init : GateInv GateState.init := by
  refine ⟨rfl, rfl, fun _ => rfl, ?_, ?_⟩ <;> intro j hj <;> exact absurd hj (List.not_mem_nil j)

/-- A running job is the unique occupant: the running list is exactly the
singleton of that job, and the counter is zero. -/
theorem running_singleton {s : GateState} (h1 : s.running.length + s.value = 1)
    {j : JobId} (hj : j ∈ s.running) : s.running = [j] ∧ s.value = 0 := by
  have hpos : 0 < s.running.length := List.length_pos.mpr (List.ne_nil_of_mem hj)
  have hlen : s.running.length = 1 := by omega
  obtain ⟨a, ha⟩ := List.length_eq_one.mp hlen
  rw [ha] at hj
  have haj : a = j := (List.mem_singleton.mp hj).symm
  constructor
  · rw [ha, haj]
  · omega

theorem gateInv_step {s s' : GateState} (h : GateInv s) (hs : GateStep s s') :
    GateInv s' := by
  obtain ⟨h1, h2, h3, h4, h5⟩ := h
  cases hs with
  | arriveFree j hfresh hv hq =>
    have hv1 : s.value = 1 := by omega
    have hr0 : s.running.length = 0 := by omega
    refine ⟨?_, ?_, ?_, ?_, ?_⟩
    · simp [List.length_append, hr0, hv1]
    · rw [hq, List.append_nil] at h2
      show (s.admitted ++ [j]) ++ s.queue = s.arrivals ++ [j]
      rw [hq, List.append_nil, h2]
    · intro hvpos
      exact hq
    · intro m hm
      rcases List.mem_append.mp hm with hm | hm
      · exact List.mem_append_left _ (h4 m hm)
      · exact List.mem_append_right _ hm
    · intro m hm
      exact List.mem_append_left _ (h5 m hm)
  | arriveBusy j hfresh hbusy =>
    refine ⟨h1, ?_, ?_, h4, h5⟩
    · show s.admitted ++ (s.queue ++ [j]) = s.arrivals ++ [j]
      rw [← List.append_assoc, h2]
    · intro hvpos
      exfalso
      have hv' : 0 < s.value := hvpos
      rcases hbusy with h0 | hne
      · omega
      · exact hne (h3 hv')
  | backendCall j hj =>
    refine ⟨h1, h2, h3, h4, ?_⟩
    intro m hm
    rcases List.mem_append.mp hm with hm | hm
    · exact h5 m hm
    · rw [List.mem_singleton.mp hm]
      exact h4 j hj
  | releaseToWaiter j k rest hj hq =>
    obtain ⟨hrun, hval⟩ := running_singleton h1 hj
    refine ⟨?_, ?_, ?_, ?_, ?_⟩
    · rw [hrun]
      simp [List.erase_cons_head, hval]
    · show (s.admitted ++ [k]) ++ rest = s.arrivals
      rw [hq] at h2
      rw [List.append_assoc]
      exact h2
    · intro hvpos
      have hv' : 0 < s.value := hvpos
      omega
    · intro m hm
      rcases List.mem_append.mp hm with hm | hm
      · exact List.mem_append_left _ (h4 m (List.mem_of_mem_erase hm))
      · exact List.mem_append_right _ hm
    · intro m hm
      exact List.mem_append_left _ (h5 m hm)
  | releaseIdle j hj hq =>
    obtain ⟨hrun, hval⟩ := running_singleton h1 hj
    refine ⟨?_, h2, fun _ => hq, ?_, h5⟩
    · rw [hrun]
      simp [List.erase_cons_head, hval]
    · intro m hm
      exact h4 m (List.mem_of_mem_erase hm)

/-- Every reachable gate state satisfies the invariant. -/
theorem gateInv_reachable {s : GateState} (h : GateReachable s) : GateInv s := by
  induction h with
  | init => exact gateInv_init
  | step _ hs ih => exact gateInv_step ih hs

/-- C1.  In every reachable state of the process-wide semaphore gate, at
most one job is inside the gate (so at most one backend synthesis call
executes at a time, process-wide), admissions followed by the FIFO
waiting queue are exactly the arrivals in order (so waiters are admitted
in arrival order: the admitted sequence is always a prefix of the arrival
sequence), and every backend call was made by an admitted job — calls
happen only while holding the gate, by the `backendCall` step's guard. -/
theorem c1_gate_exclusion_fifo (s : GateState) (h : GateReachable s) :
    s.running.length ≤ 1 ∧
    s.admitted ++ s.queue = s.arrivals ∧
    s.admitted <+: s.arrivals ∧
    (∀ j ∈ s.calls, j ∈ s.admitted) := by
  obtain ⟨h1, h2, h3, h4, h5⟩ := gateInv_reachable h
  exact ⟨by omega, h2, ⟨s.queue, h2⟩, h5⟩

/-- A gate state with five arrived jobs: job 0 was admitted, called the
backend and released; job 1 (the head waiter) was admitted next; jobs
2, 3, 4 still wait in FIFO order. -/
def gateDemoState : GateState :=
  ⟨0, [2, 3, 4], [1], [0, 1, 2, 3, 4], [0, 1], [0], [0]⟩

theorem gateDemoState_reachable : GateReachable gateDemoState := by
  have r1 : GateReachable ⟨0, [], [0], [0], [0], [], []⟩ :=
    GateReachable.step GateReachable.init
      (GateStep.arriveFree GateState.init 0 (by decide) (by decide) rfl)
  have r2 : GateReachable ⟨0, [1], [0], [0, 1], [0], [], []⟩ :=
    GateReachable.step r1 (GateStep.arriveBusy _ 1 (by decide) (Or.inl rfl))
  have r3 : GateReachable ⟨0, [1, 2], [0], [0, 1, 2], [0], [], []⟩ :=
    GateReachable.step r2 (GateStep.arriveBusy _ 2 (by decide) (Or.inl rfl))
  have r4 : GateReachable ⟨0, [1, 2, 3], [0], [0, 1, 2, 3], [0], [], []⟩ :=
    GateReachable.step r3 (GateStep.arriveBusy _ 3 (by decide) (Or.inl rfl))
  have r5 : GateReachable ⟨0, [1, 2, 3, 4], [0], [0, 1, 2, 3, 4], [0], [], []⟩ :=
    GateReachable.step r4 (GateStep.arriveBusy _ 4 (by decide) (Or.inl rfl))
  have r6 : GateReachable ⟨0, [1, 2, 3, 4], [0], [0, 1, 2, 3, 4], [0], [0], []⟩ :=
    GateReachable.step r5 (GateStep.backendCall _ 0 (by decide))
  exact GateReachable.step r6
    (GateStep.releaseToWaiter _ 0 1 [2, 3, 4] (by decide) rfl)

/-- C1 at a concrete reachable state with five concurrently submitted
jobs: at most one runs, and admissions follow arrival order. -/
theorem c1_gate_exclusion_fifo_witness :
    gateDemoState.running.length ≤ 1 ∧
    gateDemoState.admitted ++ gateDemoState.queue = gateDemoState.arrivals ∧
    gateDemoState.admitted <+: gateDemoState.arrivals ∧
    (∀ j ∈ gateDemoState.calls, j ∈ gateDemoState.admitted) :=
  c1_gate_exclusion_fifo gateDemoState gateDemoState_reachable

/-- The remaining pending set after a pop is a subset of the original. -/
theorem popSeq_subset (k : Nat) : ∀ {l : List (Nat × JobResult)} {r rest},
    popSeq k l = some (r, rest) → ∀ p ∈ rest, p ∈ l := by
  intro l
  induction l with
  | nil => intro r rest h; exact absurd h (by simp [popSeq])
  | cons hd tl ih =>
    intro r rest h p hp
    rcases hd with ⟨s, v⟩
    unfold popSeq at h
    split at h
    · cases h
      exact List.mem_cons_of_mem _ hp
    · rcases hpop : popSeq k tl with _ | ⟨r', rest'⟩ <;> rw [hpop] at h
      · cases h
      · cases h
        rcases List.mem_cons.mp hp with hp | hp
        · exact List.mem_cons.mpr (Or.inl hp)
        · exact List.mem_cons_of_mem _ (ih hpop p hp)

/-- A successful pop found its key in the list. -/
theorem popSeq_found (k : Nat) : ∀ {l : List (Nat × JobResult)} {r rest},
    popSeq k l = some (r, rest) → (k, r) ∈ l := by
  intro l
  induction l with
  | nil => intro r rest h; exact absurd h (by simp [popSeq])
  | cons hd tl ih =>
    intro r rest h
    rcases hd with ⟨s, v⟩
    unfold popSeq at h
    split at h
    · rename_i hsk
      cases h
      rw [hsk]
      exact List.mem_cons_self _ _
    · rcases hpop : popSeq k tl with _ | ⟨r', rest'⟩ <;> rw [hpop] at h
      · cases h
      · cases h
        exact List.mem_cons_of_mem _ (ih hpop)

/-- Popping a key from a list with distinct keys removes it entirely and
keeps the remaining keys distinct. -/
theorem popSeq_nodup (k : Nat) : ∀ {l : List (Nat × JobResult)} {r rest},
    popSeq k l = some (r, rest) → (l.map Prod.fst).Nodup →
    k ∉ rest.map Prod.fst ∧ (rest.map Prod.fst).Nodup := by
  intro l
  induction l with
  | nil => intro r rest h _; exact absurd h (by simp [popSeq])
  | cons hd tl ih =>
    intro r rest h hnd
    rcases hd with ⟨s, v⟩
    rw [List.map_cons, List.nodup_cons] at hnd
    unfold popSeq at h
    split at h
    · rename_i hsk
      cases h
      rw [← hsk]
      exact ⟨hnd.1, hnd.2⟩
    · rename_i hsk
      rcases hpop : popSeq k tl with _ | ⟨r', rest'⟩ <;> rw [hpop] at h
      · cases h
      · cases h
        obtain ⟨hk, hnd'⟩ := ih hpop hnd.2
        refine ⟨?_, ?_⟩
        · rw [List.map_cons, List.mem_cons]
          rintro (hks | hks)
          · exact hsk hks.symm
          · exact hk hks
        · rw [List.map_cons, List.nodup_cons]
          refine ⟨?_, hnd'⟩
          intro hs
          rcases List.mem_map.mp hs with ⟨p, hp, hps⟩
          exact hnd.1 (List.mem_map.mpr ⟨p, popSeq_subset k hpop p hp, hps⟩)

/-- Ordering invariant of the strict queue: delivered sequence numbers
are pairwise increasing and all below the cursor. -/
def StrictInvA (q : StrictQueue) : Prop :=
  List.Pairwise (· < ·) (q.delivered.map Prod.fst) ∧
  ∀ x ∈ q.delivered.map Prod.fst, x < q.cursor

/-- The release step preserves the ordering invariant. -/
theorem strictReleaseGo_invA : ∀ fuel q, StrictInvA q →
    StrictInvA (strictReleaseGo fuel q) := by
  intro fuel
  induction fuel with
  | zero => intro q h; exact h
  | succ n ih =>
    intro q h
    obtain ⟨hp, hb⟩ := h
    unfold strictReleaseGo
    rcases hpq : popSeq q.cursor q.pending with _ | ⟨r, rest⟩
    · exact ⟨hp, hb⟩
    · cases r with
      | okChunk a =>
        refine ih _ ⟨?_, ?_⟩
        · rw [List.map_append]
          refine List.pairwise_append.mpr ⟨hp, List.pairwise_singleton _ _, ?_⟩
          intro x hx y hy
          have hy' : y = q.cursor := by simpa using hy
          rw [hy']
          exact hb x hx
        · intro x hx
          rw [List.map_append] at hx
          rcases List.mem_append.mp hx with hx | hx
          · exact Nat.lt_succ_of_lt (hb x hx)
          · have hx' : x = q.cursor := by simpa using hx
            rw [hx']
            exact Nat.lt_succ_self _
      | failure =>
        refine ih _ ⟨hp, ?_⟩
        intro x hx
        exact Nat.lt_succ_of_lt (hb x hx)

/-- Pushing preserves the ordering invariant. -/
theorem push_invA (q : StrictQueue) (s : Nat) (r : JobResult) (h : StrictInvA q) :
    StrictInvA (q.push s r) :=
  strictReleaseGo_invA _ _ ⟨h.1, h.2⟩

/-- Every strict delivery run satisfies the ordering invariant. -/
theorem strictDeliver_invA (arrivals : List (Nat × JobResult)) :
    StrictInvA (strictDeliver arrivals) := by
  have hgen : ∀ (arr : List (Nat × JobResult)) (q : StrictQueue), StrictInvA q →
      StrictInvA (arr.foldl (fun q a => q.push a.1 a.2) q) := by
    intro arr
    induction arr with
    | nil => intro q h; exact h
    | cons a rest ih => intro q h; exact ih _ (push_invA q a.1 a.2 h)
  exact hgen arrivals StrictQueue.init ⟨List.Pairwise.nil, by intro x hx; cases hx⟩

/-- Hold-back invariant of the strict queue relative to the sequence
numbers seen so far: pending entries are at or past the cursor, carry
seen numbers, have distinct numbers, and every number below the cursor
has been seen. -/
def StrictInvB (seen : List Nat) (q : StrictQueue) : Prop :=
  (∀ p ∈ q.pending, q.cursor ≤ p.1) ∧
  (∀ p ∈ q.pending, p.1 ∈ seen) ∧
  (q.pending.map Prod.fst).Nodup ∧
  (∀ n, n < q.cursor → n ∈ seen)

/-- The release step preserves the hold-back invariant. -/
theorem strictReleaseGo_invB (seen : List Nat) : ∀ fuel q, StrictInvB seen q →
    StrictInvB seen (strictReleaseGo fuel q) := by
  intro fuel
  induction fuel with
  | zero => intro q h; exact h
  | succ n ih =>
    intro q h
    obtain ⟨h1, h2, h3, h4⟩ := h
    unfold strictReleaseGo
    rcases hpq : popSeq q.cursor q.pending with _ | ⟨r, rest⟩
    · exact ⟨h1, h2, h3, h4⟩
    · obtain ⟨hknotin, hndrest⟩ := popSeq_nodup q.cursor hpq h3
      refine ih _ ⟨?_, ?_, hndrest, ?_⟩
      · intro p hp
        have hple := h1 p (popSeq_subset q.cursor hpq p hp)
        have hpne : p.1 ≠ q.cursor := fun he =>
          hknotin (he ▸ List.mem_map.mpr ⟨p, hp, rfl⟩)
        show q.cursor + 1 ≤ p.1
        omega
      · intro p hp
        exact h2 p (popSeq_subset q.cursor hpq p hp)
      · intro m hm
        rcases Nat.lt_succ_iff_lt_or_eq.mp hm with hm | hm
        · exact h4 m hm
        · rw [hm]
          exact h2 (q.cursor, r) (popSeq_found q.cursor hpq)

/-- Pushing an unseen sequence number preserves the hold-back invariant
with the number added to the seen list. -/
theorem push_invB (seen : List Nat) (q : StrictQueue) (s : Nat) (r : JobResult)
    (h : StrictInvB seen q) (hs : s ∉ seen) :
    StrictInvB (seen ++ [s]) (q.push s r) := by
  obtain ⟨h1, h2, h3, h4⟩ := h
  refine strictReleaseGo_invB _ _ _ ⟨?_, ?_, ?_, ?_⟩
  · intro p hp
    rcases List.mem_cons.mp hp with hp | hp
    · rw [hp]
      show q.cursor ≤ s
      by_contra hlt
      exact hs (h4 s (by omega))
    · exact h1 p hp
  · intro p hp
    rcases List.mem_cons.mp hp with hp | hp
    · rw [hp]
      exact List.mem_append_right _ (List.mem_singleton.mpr rfl)
    · exact List.mem_append_left _ (h2 p hp)
  · rw [List.map_cons, List.nodup_cons]
    refine ⟨?_, h3⟩
    intro hmem
    rcases List.mem_map.mp hmem with ⟨p, hp, hps⟩
    have hps' : p.1 = s := hps
    exact hs (hps' ▸ h2 p hp)
  · intro m hm
    exact List.mem_append_left _ (h4 m hm)

/-- Folding distinct arrivals preserves the hold-back invariant. -/
theorem strictDeliver_invB : ∀ (arr : List (Nat × JobResult)) (q : StrictQueue)
    (seen : List Nat), StrictInvB seen q → (seen ++ arr.map Prod.fst).Nodup →
    StrictInvB (seen ++ arr.map Prod.fst)
      (arr.foldl (fun q a => q.push a.1 a.2) q) := by
  intro arr
  induction arr with
  | nil =>
    intro q seen h _
    simpa using h
  | cons a rest ih =>
    intro q seen h hn
    have hassoc : seen ++ (a :: rest).map Prod.fst
        = (seen ++ [a.1]) ++ rest.map Prod.fst := by simp
    have hs : a.1 ∉ seen := by
      rw [hassoc] at hn
      rcases List.nodup_append.mp hn with ⟨hn1, _, _⟩
      rcases List.nodup_append.mp hn1 with ⟨_, _, hdisj⟩
      intro hmem
      exact hdisj hmem (List.mem_singleton.mpr rfl)
    have h' := push_invB seen q a.1 a.2 h hs
    have hn' : ((seen ++ [a.1]) ++ rest.map Prod.fst).Nodup := by rwa [hassoc] at hn
    have hres := ih (q.push a.1 a.2) (seen ++ [a.1]) h' hn'
    rw [hassoc]
    exact hres

/-- C3.  In strict delivery mode (modelled from the spec; the repository
implements only best-effort delivery), for every arrival sequence the
delivered chunks have pairwise strictly increasing sequence numbers — so
no sequence number is delivered twice — and every delivered number is
below the cursor; and for distinct arrival numbers, every chunk still
pending (arrived before its predecessors) is held at or past the cursor,
i.e. held back until the cursor reaches its sequence number, with failed
numbers skipped by the cursor rather than blocking it. -/
theorem c3_strict_mode_delivery (arrivals : List (Nat × JobResult)) :
    List.Pairwise (· < ·) ((strictDeliver arrivals).delivered.map Prod.fst) ∧
    ((strictDeliver arrivals).delivered.map Prod.fst).Nodup ∧
    (∀ p ∈ (strictDeliver arrivals).delivered, p.1 < (strictDeliver arrivals).cursor) ∧
    ((arrivals.map Prod.fst).Nodup →
      ∀ p ∈ (strictDeliver arrivals).pending,
        (strictDeliver arrivals).cursor ≤ p.1) := by
  obtain ⟨hA1, hA2⟩ := strictDeliver_invA arrivals
  refine ⟨hA1, hA1.imp (fun h => Nat.ne_of_lt h), ?_, ?_⟩
  · intro p hp
    exact hA2 p.1 (List.mem_map.mpr ⟨p, hp, rfl⟩)
  · intro hnd
    have hinit : StrictInvB [] StrictQueue.init := by
      refine ⟨?_, ?_, List.Pairwise.nil, ?_⟩
      · intro p hp; cases hp
      · intro p hp; cases hp
      · intro n hn; exact absurd hn (Nat.not_lt_zero n)
    have hfin := strictDeliver_invB arrivals StrictQueue.init [] hinit (by simpa using hnd)
    exact hfin.1

/-- The out-of-order arrival sequence of the specification's delivery
test: sequence 1 completes first, 0 fails, 2 completes last. -/
def c3demo : List (Nat × JobResult) :=
  [(1, .okChunk [1]), (0, .failure), (2, .okChunk [2])]

/-- C3 at a concrete out-of-order run: the numbers are distinct, chunk 1
is held until the failure of 0 advances the cursor, nothing stays
pending, and delivery is exactly 1 then 2 in increasing order. -/
theorem c3_strict_mode_delivery_witness :
    (c3demo.map Prod.fst).Nodup ∧
    (∀ p ∈ (strictDeliver c3demo).pending, (strictDeliver c3demo).cursor ≤ p.1) ∧
    (strictDeliver c3demo).delivered = [(1, [1]), (2, [2])] ∧
    (strictDeliver c3demo).cursor = 3 :=
  ⟨by decide, (c3_strict_mode_delivery c3demo).2.2.2 (by decide), by decide, by decide⟩

end VideoAvatar
